import Mathlib

/-!
Verification of the merkle-log verification core of go-datatrails-logverification.

Hash values are modelled as natural numbers.  The SHA-256 combining function
used to build interior MMR nodes, and the leaf hashing function, are taken as
parameters (`comb`, `hashFn`): none of the verified properties depend on any
property of SHA-256 beyond it being a function.

The repository's own code (appentry.go, massif.go, verifylist (part_011),
verifyconsistency, leafrange.go) is translated directly.  The MMR address
algebra and the massif access layer live in the external
go-datatrails-merklelog modules, which are not part of this repository's
sources; those operations are modelled from the specification's description
of them (leaf/position algebra, peak decomposition, inclusion and
consistency checking, massif window bookkeeping), as noted on each
definition.
-/

namespace LogVerification

/-- Modelled from the spec: population count of the binary representation,
used by the MMR position algebra.  Fuel-based so that it reduces in the
kernel; `popcountFuel f n` is correct whenever `n ≤ f`. -/
def popcountFuel : Nat → Nat → Nat
  | 0, _ => 0
  | fuel + 1, n => if n = 0 then 0 else popcountFuel fuel (n / 2) + n % 2

/-- Modelled from the spec: number of set bits of `n`. -/
def popcount (n : Nat) : Nat := popcountFuel n n

/-- Modelled from the spec (mmr.MMRIndex, external go-datatrails-merklelog):
`mmr_index(leaf_index)` maps a leaf ordinal to its node position in the MMR;
the closed form of the standard algorithm is `2*l - popcount l`. -/
def MMRIndex (l : Nat) : Nat := 2 * l - popcount l

/-- Fuel-based binary bit length (kernel-reducible); `bitlenFuel f n` is
the bit length of `n` whenever `n ≤ f`. -/
def bitlenFuel : Nat → Nat → Nat
  | 0, _ => 0
  | fuel + 1, n => if n = 0 then 0 else bitlenFuel fuel (n / 2) + 1

/-- Bit length of `n`: the number of binary digits of `n`. -/
def bitlen (n : Nat) : Nat := bitlenFuel n n

/-- One step of the all-ones jump loop that computes the height of an MMR
position; fuel-based so it reduces in the kernel. -/
def indexHeightFuel : Nat → Nat → Nat
  | 0, pos => bitlen pos - 1
  | fuel + 1, pos =>
    if pos + 1 = 2 ^ bitlen pos then bitlen pos - 1
    else indexHeightFuel fuel (pos - (2 ^ (bitlen pos - 1) - 1))

/-- Modelled from the spec (mmr.IndexHeight, external go-datatrails-merklelog):
`height(index)` is the height of the node at position `index` (leaves are
height 0), computed by the standard jump-to-all-ones loop. -/
def IndexHeight (i : Nat) : Nat := indexHeightFuel (i + 1) (i + 1)

/-- Modelled from the spec (mmr.LeafCount, external go-datatrails-merklelog):
`leaf_count(size)` counts the leaf positions that lie strictly below `size`;
per testable property 6 of the spec, `leaf_count(mmr_index(l)+1) - 1 = l`. -/
def LeafCount (s : Nat) : Nat :=
  if s = 0 then 0 else Nat.findGreatest (fun n => MMRIndex n < s) s + 1

/-- The leaf ordinal of the node at MMR position `i`, when that node is a
leaf.  Used by the modelled proof engine to locate the leaf. -/
def leafIndexOfMMRIndex? (i : Nat) : Option Nat :=
  (List.range (i + 1)).find? (fun l => MMRIndex l == i)

/-- Fuel-based binary logarithm (kernel-reducible). -/
def log2Fuel : Nat → Nat → Nat
  | 0, _ => 0
  | fuel + 1, n => if 2 ≤ n then log2Fuel fuel (n / 2) + 1 else 0

/-- Binary logarithm: `2 ^ log2n n ≤ n < 2 ^ (log2n n + 1)` for `1 ≤ n`. -/
def log2n (n : Nat) : Nat := log2Fuel n n

/-- Modelled from the spec: the peak decomposition of an MMR with `n` leaves.
Each set bit of `n` contributes one perfect subtree; `peakSegsFrom fuel n
start` lists `(segment start, height)` pairs, largest subtree first, the
segments tiling `[start, start+n)`.  Correct whenever `n ≤ fuel`. -/
def peakSegsFrom : Nat → Nat → Nat → List (Nat × Nat)
  | 0, _, _ => []
  | fuel + 1, n, start =>
    if n = 0 then []
    else (start, log2n n) :: peakSegsFrom fuel (n - 2 ^ log2n n) (start + 2 ^ log2n n)

/-- The peak segments of an MMR with `n` leaves: `(leaf-segment start, tree
height)` pairs, in position order. -/
def peakSegs (n : Nat) : List (Nat × Nat) := peakSegsFrom n n 0

/-- Root hash of the perfect subtree of height `k` over the leaf slice
`[start, start + 2^k)` of `leaves`, combining with `comb`. -/
def segRoot (comb : Nat → Nat → Nat) (leaves : List Nat) (start : Nat) : Nat → Nat
  | 0 => leaves.getD start 0
  | k + 1 => comb (segRoot comb leaves start k) (segRoot comb leaves (start + 2 ^ k) k)

/-- Modelled from the spec: the sibling path for the leaf at offset `o` of
the perfect subtree of height `k` rooted over `[start, start + 2^k)`.  Each
path element carries the side the sibling hash is combined on (`true`: the
sibling is the right child) together with the sibling hash, bottom-up. -/
def segPath (comb : Nat → Nat → Nat) (leaves : List Nat) (start : Nat) :
    Nat → Nat → List (Bool × Nat)
  | 0, _ => []
  | k + 1, o =>
    if o < 2 ^ k then
      segPath comb leaves start k o ++ [(true, segRoot comb leaves (start + 2 ^ k) k)]
    else
      segPath comb leaves (start + 2 ^ k) k (o - 2 ^ k) ++ [(false, segRoot comb leaves start k)]

/-- Walk a sibling path upwards from `h`, combining at each step. -/
def foldRoot (comb : Nat → Nat → Nat) (h : Nat) (path : List (Bool × Nat)) : Nat :=
  path.foldl (fun acc e => if e.1 then comb acc e.2 else comb e.2 acc) h

/-- Modelled from the spec: the peak hashes of an MMR with `n` leaves stored
in `leaves`, in position order. -/
def peaks (comb : Nat → Nat → Nat) (leaves : List Nat) (n : Nat) : List Nat :=
  (peakSegs n).map (fun sk => segRoot comb leaves sk.1 sk.2)

/-- The peak segment of an `n`-leaf MMR containing leaf ordinal `l`. -/
def findSeg (n l : Nat) : Option (Nat × Nat) :=
  (peakSegs n).find? (fun sk => decide (sk.1 ≤ l) && decide (l < sk.1 + 2 ^ sk.2))

/-- The error values surfaced by the verification core (verifylist part_011,
massif.go, verifyconsistency, appentry.go, and the modelled external
storage/mmr operations). -/
inductive Err where
  | notLeaf
  | intermediateNode
  | duplicateAppEntryMMRIndex
  | appEntryNotOnLeaf
  | inclusionProofVerify
  | notEnoughAppEntriesInList
  | nilMassifContext
  | invalidIDTimestamp
  | nilMerkleLogCommit
  | statePeaksNotSet
  | mmrIndexOutOfRange
  | invalidLogID
  | fetchFailed
deriving DecidableEq, Repr

/-- Modelled from the spec (mmr.InclusionProof, external
go-datatrails-merklelog): produce the sibling path proving inclusion of the
leaf node at MMR position `i`; per the spec the last-index argument of the
source is derived internally from the store. -/
def InclusionProof (comb : Nat → Nat → Nat) (leaves : List Nat) (i : Nat) :
    Except Err (List (Bool × Nat)) :=
  match leafIndexOfMMRIndex? i with
  | none => .error .notLeaf
  | some l =>
    match findSeg leaves.length l with
    | none => .error .mmrIndexOutOfRange
    | some sk => .ok (segPath comb leaves sk.1 sk.2 (l - sk.1))

/-- Modelled from the spec (mmr.VerifyInclusion, external
go-datatrails-merklelog): walk the path from the claimed leaf hash of the
node at position `i`, producing the implied peak, and match it against the
peaks of the MMR of `mmrSize` nodes over `leaves`. -/
def VerifyInclusion (comb : Nat → Nat → Nat) (leaves : List Nat) (mmrSize : Nat)
    (leafHash : Nat) (i : Nat) (proof : List (Bool × Nat)) : Except Err Bool :=
  match leafIndexOfMMRIndex? i with
  | none => .error .notLeaf
  | some _ =>
    .ok ((peaks comb leaves (LeafCount mmrSize)).any
      (fun p => decide (p = foldRoot comb leafHash proof)))

/-- Modelled from the spec (mmr.CheckConsistency, external
go-datatrails-merklelog): each old peak of the `sizeA`-node MMR must remain
as a sub-peak of the `sizeB`-node MMR, i.e. each old peak hash must be
reproduced by the new tree over the same leaf segment; building the proof
for a segment that extends beyond the new tree fails. -/
def CheckConsistency (comb : Nat → Nat → Nat) (leavesB : List Nat)
    (sizeA sizeB : Nat) (peaksA : List Nat) : Except Err Bool :=
  if peaksA.length ≠ (peakSegs (LeafCount sizeA)).length then .ok false
  else if (peakSegs (LeafCount sizeA)).any
      (fun sk => decide (LeafCount sizeB < sk.1 + 2 ^ sk.2)) then
    .error .mmrIndexOutOfRange
  else
    .ok (((peakSegs (LeafCount sizeA)).zip peaksA).all
      (fun x => decide (segRoot comb leavesB x.1.1 x.1.2 = x.2)))

/-- massifs.MassifStart (external go-datatrails-merklelog), start-header
fields used by the verifier. -/
structure MassifStart where
  firstIndex : Nat
  massifHeight : Nat
deriving DecidableEq, Repr, Inhabited

/-- Modelled from the spec (massifs.MassifContext, external
go-datatrails-merklelog): the window onto one massif blob.  `leaves` is the
global list of leaf hashes of the log up to and including this massif;
nodes are reconstructed from it on access. -/
structure MassifContext where
  start : MassifStart
  massifIndex : Nat
  leaves : List Nat
deriving DecidableEq, Repr, Inhabited

/-- Number of leaves a massif of the given height holds. -/
def leavesPerMassif (massifHeight : Nat) : Nat := 2 ^ (massifHeight - 1)

/-- Modelled from the spec (`range_count()`): number of MMR nodes
represented by this and all prior massifs together. -/
def MassifContext.RangeCount (mc : MassifContext) : Nat := MMRIndex mc.leaves.length

/-- Modelled from the spec (`last_leaf_mmr_index()`): the MMR index of the
last leaf of this massif. -/
def MassifContext.LastLeafMMRIndex (mc : MassifContext) : Nat :=
  MMRIndex ((mc.massifIndex + 1) * leavesPerMassif mc.start.massifHeight - 1)

/-- The number of MMR nodes the massif itself stores: nodes appended while
its own leaves were added. -/
def massifNodeCount (mc : MassifContext) : Nat :=
  MMRIndex ((mc.massifIndex + 1) * leavesPerMassif mc.start.massifHeight)
    - MMRIndex (mc.massifIndex * leavesPerMassif mc.start.massifHeight)

/-- Value of the MMR node at position `i`: a leaf's stored hash, or the
`comb` of its two children for an interior node.  Fuel-based so it reduces
in the kernel; fuel `i+1` always suffices. -/
def nodeValueFuel (comb : Nat → Nat → Nat) (leaves : List Nat) : Nat → Nat → Nat
  | 0, _ => 0
  | fuel + 1, i =>
    if IndexHeight i = 0 then leaves.getD ((leafIndexOfMMRIndex? i).getD 0) 0
    else comb (nodeValueFuel comb leaves fuel (i - 2 ^ IndexHeight i))
              (nodeValueFuel comb leaves fuel (i - 1))

/-- Value of the MMR node at position `i` over `leaves`. -/
def nodeValue (comb : Nat → Nat → Nat) (leaves : List Nat) (i : Nat) : Nat :=
  nodeValueFuel comb leaves (i + 1) i

/-- Modelled from the spec (`node(i)`, massifs.MassifContext.Get): the 32-byte
node value at MMR index `i`; in-range reads of interior nodes are allowed. -/
def MassifContext.Get (mc : MassifContext) (comb : Nat → Nat → Nat) (i : Nat) :
    Except Err Nat :=
  if i < mc.RangeCount then .ok (nodeValue comb mc.leaves i) else .error .mmrIndexOutOfRange

/-- A massif reader: resolves (tenant identity, massif index) to the massif
context, as the external massifs.MassifReader does against blob storage. -/
abbrev MassifReader := String → Nat → Except Err MassifContext

/-- Hex digit value of a character, if it is one. -/
def hexDigit? (c : Char) : Option Nat :=
  if '0' ≤ c ∧ c ≤ '9' then some (c.toNat - 48)
  else if 'a' ≤ c ∧ c ≤ 'f' then some (c.toNat - 87)
  else if 'A' ≤ c ∧ c ≤ 'F' then some (c.toNat - 55)
  else none

/-- Decode a hex character list into bytes (pairs of digits). -/
def hexDecode : List Char → Option (List Nat)
  | [] => some []
  | c1 :: c2 :: rest =>
    match hexDigit? c1, hexDigit? c2, hexDecode rest with
    | some hi, some lo, some bytes => some ((16 * hi + lo) :: bytes)
    | _, _, _ => none
  | [_] => none

/-- Modelled from the spec (massifs.SplitIDTimestampHex, external
go-datatrails-merklelog): an id-timestamp in textual form is `0x` followed
by 18 hex characters, a leading commitment-epoch byte followed by the
8-byte big-endian id-timestamp; returns (id-timestamp value, epoch). -/
def SplitIDTimestampHex (s : String) : Except Err (Nat × Nat) :=
  let cs := match s.toList with
    | '0' :: 'x' :: rest => rest
    | other => other
  match hexDecode cs with
  | none => .error .invalidIDTimestamp
  | some bytes =>
    match bytes with
    | epoch :: rest =>
      if rest.length = 8 then .ok (rest.foldl (fun acc b => 256 * acc + b) 0, epoch)
      else .error .invalidIDTimestamp
    | [] => .error .invalidIDTimestamp

/-- Big-endian 8-byte encoding of a 64-bit value (binary.BigEndian.PutUint64). -/
def beBytes8 (v : Nat) : List Nat :=
  [v / 2 ^ 56 % 256, v / 2 ^ 48 % 256, v / 2 ^ 40 % 256, v / 2 ^ 32 % 256,
   v / 2 ^ 24 % 256, v / 2 ^ 16 % 256, v / 2 ^ 8 % 256, v % 256]

/-- appentry.go: MMRSaltSize. -/
def MMRSaltSize : Nat := 32

/-- appentry.go: ExtraBytesSize. -/
def ExtraBytesSize : Nat := 24

/-- appentry.go: IDTimestapSizeBytes. -/
def IDTimestapSizeBytes : Nat := 8

/-- assets.MerkleLogCommit: the log-entry commitment carried by an app
entry (index and textual id-timestamp). -/
structure MerkleLogCommit where
  index : Nat
  idtimestamp : String
deriving DecidableEq, Repr, Inhabited

/-- appentry.go: MMREntryFields, the fields hashed into the MMR entry. -/
structure MMREntryFields where
  domain : Nat
  serializedBytes : List Nat
deriving DecidableEq, Repr, Inhabited

/-- appentry.go: AppEntry, the app-provided data for a log entry.  A nil
`merkleLogCommit` pointer is modelled as `none`. -/
structure AppEntry where
  appID : String
  logID : List Nat
  extraBytes : List Nat
  mmrEntryFields : MMREntryFields
  merkleLogCommit : Option MerkleLogCommit
deriving DecidableEq, Repr, Inhabited

/-- appentry.go AppEntry.MMRIndex: the mmr index of the corresponding log
entry; 0 for a nil commit. -/
def AppEntry.MMRIndex (ae : AppEntry) : Nat :=
  match ae.merkleLogCommit with
  | none => 0
  | some c => c.index

/-- appentry.go AppEntry.IDTimestamp: the idtimestamp of the corresponding
log entry; the empty string for a nil commit. -/
def AppEntry.IDTimestamp (ae : AppEntry) : String :=
  match ae.merkleLogCommit with
  | none => ""
  | some c => c.idtimestamp

/-- Lower-case hex character of a digit value. -/
def hexChar (n : Nat) : Char :=
  if n < 10 then Char.ofNat (48 + n) else Char.ofNat (87 + n)

/-- Two-character hex rendering of one byte. -/
def byteHex (b : Nat) : List Char := [hexChar (b / 16 % 16), hexChar (b % 16)]

/-- The canonical 8-4-4-4-12 textual form of a 16-byte UUID. -/
def uuidString (bytes : List Nat) : String :=
  let hx := fun (bs : List Nat) => String.mk (bs.flatMap byteHex)
  hx (bytes.take 4) ++ "-" ++ hx ((bytes.drop 4).take 2) ++ "-"
    ++ hx ((bytes.drop 6).take 2) ++ "-" ++ hx ((bytes.drop 8).take 2) ++ "-"
    ++ hx (bytes.drop 10)

/-- appentry.go AppEntry.LogTenant: the log tenant identity
`tenant/<uuid>` derived from the 16-byte log id; errors if the log id is
not a valid UUID byte string. -/
def AppEntry.LogTenant (ae : AppEntry) : Except Err String :=
  if ae.logID.length = 16 then .ok ("tenant/" ++ uuidString ae.logID)
  else .error .invalidLogID

/-- appentry.go AppEntry.MMRSalt: `(extrabytes | idtimestamp)`; the extra
bytes are copied into a zeroed 24-byte field (truncating or right-padding),
followed by the 8-byte big-endian id-timestamp parsed from the commit's
textual form.  A nil commit cannot produce a salt. -/
def AppEntry.MMRSalt (ae : AppEntry) : Except Err (List Nat) :=
  match ae.merkleLogCommit with
  | none => .error .nilMerkleLogCommit
  | some c =>
    match SplitIDTimestampHex c.idtimestamp with
    | .error e => .error e
    | .ok (idts, _) =>
      .ok ((ae.extraBytes.take ExtraBytesSize
            ++ List.replicate (ExtraBytesSize - ae.extraBytes.length) 0)
           ++ beBytes8 idts)

/-- appentry.go AppEntry.MMREntry: `H(Domain | MMR Salt | Serialized
Bytes)`, with the hash function a parameter. -/
def AppEntry.MMREntry (ae : AppEntry) (hashFn : List Nat → Nat) : Except Err Nat :=
  match ae.MMRSalt with
  | .error e => .error e
  | .ok salt =>
    .ok (hashFn (ae.mmrEntryFields.domain :: (salt ++ ae.mmrEntryFields.serializedBytes)))

/-- The repository's default massif height option value. -/
def DefaultMassifHeight : Nat := 14

/-- Modelled from the spec (massifs.MassifIndexFromMMRIndex, external
go-datatrails-merklelog): massif index containing the leaf at `mmrIndex`,
together with a NotLeaf error when `mmrIndex` is a height>0 node. -/
def MassifIndexFromMMRIndex (massifHeight mmrIdx : Nat) : Nat × Option Err :=
  let leafIdx := LeafCount (mmrIdx + 1) - 1
  (leafIdx / leavesPerMassif massifHeight,
   if IndexHeight mmrIdx ≠ 0 then some .notLeaf else none)

/-- massif.go handleMassifIndexErr: if NotLeaf errors are suppressed
(`nonLeafNode`), return every error except NotLeaf; otherwise return all
errors. -/
def handleMassifIndexErr (err : Option Err) (nonLeafNode : Bool) : Option Err :=
  if !nonLeafNode then err
  else if err ≠ some .notLeaf then err
  else none

/-- massif.go Massif: get the massif context that contains `mmrIdx` for the
tenant, resolving the massif index first and filtering its error through
`handleMassifIndexErr`. -/
def Massif (mmrIdx : Nat) (reader : MassifReader) (tenantId : String)
    (massifHeight : Nat) (nonLeafNode : Bool) : Except Err MassifContext :=
  let mi := MassifIndexFromMMRIndex massifHeight mmrIdx
  match handleMassifIndexErr mi.2 nonLeafNode with
  | some e => .error e
  | none => reader tenantId mi.1

/-- Modelled from the spec (the no-error massifs.MassifIndexFromMMRIndex
overload used by massif.go's MassifGetter-based variant, lines 28-44): the
massif index containing `mmrIdx`, computed infallibly from the ordinal of
the last leaf at or before `mmrIdx` — defined for interior nodes too. -/
def massifIndexContaining (massifHeight mmrIdx : Nat) : Nat :=
  (LeafCount (mmrIdx + 1) - 1) / leavesPerMassif massifHeight

/-- massif.go Massif (MassifGetter variant, lines 28-44): get the massif
context that contains `mmrIdx` for the tenant.  The massif index is
computed infallibly, so the fetch always reaches the reader, for interior
nodes as well as leaves. -/
def MassifFromGetter (mmrIdx : Nat) (reader : MassifReader) (tenantId : String)
    (massifHeight : Nat) : Except Err MassifContext :=
  reader tenantId (massifIndexContaining massifHeight mmrIdx)

/-- massif.go UpdateMassifContext (lines 85-107): leave the context alone
when it already contains `mmrIdx` per the `[FirstIndex, LastLeafMMRIndex)`
check, otherwise fetch the massif containing `mmrIdx` through the
infallible-index Massif of the same variant.  The boolean records whether a
fetch happened; a nil context pointer is modelled as `none`. -/
def UpdateMassifContext (reader : MassifReader) (mc? : Option MassifContext)
    (mmrIdx : Nat) (tenantID : String) (massifHeight : Nat) :
    Except Err (MassifContext × Bool) :=
  match mc? with
  | none => .error .nilMassifContext
  | some mc =>
    if mc.start.firstIndex ≤ mmrIdx ∧ mmrIdx < mc.LastLeafMMRIndex then .ok (mc, false)
    else
      match MassifFromGetter mmrIdx reader tenantID massifHeight with
      | .error e => .error e
      | .ok next => .ok (next, true)

/-- appentry.go AppEntry.Proof: inclusion proof of the corresponding log
entry, over the resolved massif context (the source's `mmrSize-1` last
index argument is derived internally by the modelled proof engine). -/
def AppEntry.Proof (ae : AppEntry) (comb : Nat → Nat → Nat) (mc : MassifContext) :
    Except Err (List (Bool × Nat)) :=
  InclusionProof comb mc.leaves ae.MMRIndex

/-- appentry.go AppEntry.VerifyProof: verify the given inclusion proof of
the corresponding log entry against the massif's `RangeCount` size. -/
def AppEntry.VerifyProof (ae : AppEntry) (comb : Nat → Nat → Nat)
    (hashFn : List Nat → Nat) (mc : MassifContext) (proof : List (Bool × Nat)) :
    Except Err Bool :=
  match ae.MMREntry hashFn with
  | .error e => .error e
  | .ok entry => VerifyInclusion comb mc.leaves mc.RangeCount entry ae.MMRIndex proof

/-- appentry.go AppEntry.VerifyInclusion: compose Proof and VerifyProof
over the same massif context. -/
def AppEntry.VerifyInclusion (ae : AppEntry) (comb : Nat → Nat → Nat)
    (hashFn : List Nat → Nat) (mc : MassifContext) : Except Err Bool :=
  match ae.Proof comb mc with
  | .error e => .error e
  | .ok proof => ae.VerifyProof comb hashFn mc proof

/-- verifylist (part_011): classification of one app entry against one leaf. -/
inductive AppEntryType where
  | Unknown
  | Included
  | Excluded
  | Omitted
deriving DecidableEq, Repr

/-- leafrange.go LeafRange: the inclusive range of leaf ordinals implied by
the first and last entry of a list sorted by ascending MMR index
(`LeafCount` takes an mmrIndex+1 here, not a size). -/
def LeafRange (entries : List AppEntry) : Nat × Nat :=
  (LeafCount ((entries.headD default).MMRIndex + 1) - 1,
   LeafCount ((entries.getLastD default).MMRIndex + 1) - 1)

/-- verifyoptions (part_009): options of a list verification. -/
structure VerifyOptions where
  tenantId : String := ""
deriving DecidableEq, Repr, Inhabited

/-- verifylist (part_011) VerifyAppEntryInList: classify the next app entry
against the next leaf of the range.  Returns the classification, the error
(if any), and the possibly advanced massif context. -/
def VerifyAppEntryInList (comb : Nat → Nat → Nat) (hashFn : List Nat → Nat)
    (reader : MassifReader) (leafIndex : Nat) (ae : AppEntry)
    (mc : MassifContext) (tenantID : String) :
    AppEntryType × Option Err × MassifContext :=
  let leafMMRIndex := MMRIndex leafIndex
  let aeIdx := ae.MMRIndex
  if IndexHeight aeIdx ≠ 0 then (.Excluded, some .intermediateNode, mc)
  else if aeIdx < leafMMRIndex then (.Excluded, some .duplicateAppEntryMMRIndex, mc)
  else if leafMMRIndex < aeIdx then (.Omitted, none, mc)
  else
    match UpdateMassifContext reader (some mc) leafMMRIndex tenantID DefaultMassifHeight with
    | .error e => (.Unknown, some e, mc)
    | .ok (mc2, _) =>
      match mc2.Get comb leafMMRIndex with
      | .error e => (.Unknown, some e, mc2)
      | .ok leafMMREntry =>
        match ae.MMREntry hashFn with
        | .error e => (.Unknown, some e, mc2)
        | .ok mmrEntry =>
          if leafMMREntry ≠ mmrEntry then (.Excluded, some .appEntryNotOnLeaf, mc2)
          else
            match InclusionProof comb mc2.leaves leafMMRIndex with
            | .error e => (.Unknown, some e, mc2)
            | .ok proof =>
              match VerifyInclusion comb mc2.leaves mc2.RangeCount mmrEntry leafMMRIndex proof with
              | .error _ => (.Excluded, some .inclusionProofVerify, mc2)
              | .ok verified =>
                if verified then (.Included, none, mc2)
                else (.Excluded, some .inclusionProofVerify, mc2)

/-- verifylist (part_011) VerifyList main loop: walk every leaf ordinal of
`[leafIndex, high]`, classifying entries; Omitted leaves are appended (as
MMR indices) and keep the entry; any other successful classification
consumes the entry; running out of entries is an error.  The fuel equals
`high + 1 - leafIndex` at every call, making the recursion structural. -/
def verifyListLoop (comb : Nat → Nat → Nat) (hashFn : List Nat → Nat)
    (reader : MassifReader) (entries : List AppEntry) (optTenant : String)
    (high : Nat) : Nat → Nat → Nat → MassifContext → List Nat → Except Err (List Nat)
  | 0, _, _, _, acc => .ok acc
  | fuel + 1, leafIndex, entryIndex, mc, acc =>
    if high < leafIndex then .ok acc
    else if entries.length ≤ entryIndex then .error .notEnoughAppEntriesInList
    else
      match (if optTenant = "" then (entries.getD entryIndex default).LogTenant
             else .ok optTenant) with
      | .error e => .error e
      | .ok tenantId =>
        match VerifyAppEntryInList comb hashFn reader leafIndex
            (entries.getD entryIndex default) mc tenantId with
        | (_, some e, _) => .error e
        | (ty, none, mc2) =>
          if ty = .Omitted then
            verifyListLoop comb hashFn reader entries optTenant high
              fuel (leafIndex + 1) entryIndex mc2 (acc ++ [MMRIndex leafIndex])
          else
            verifyListLoop comb hashFn reader entries optTenant high
              fuel (leafIndex + 1) (entryIndex + 1) mc2 acc

/-- verifylist (part_011) VerifyList: verify a sorted list of app entries
against the leaf range its first and last entries imply, returning the MMR
indices of omitted leaves on success. -/
def VerifyList (comb : Nat → Nat → Nat) (hashFn : List Nat → Nat)
    (reader : MassifReader) (entries : List AppEntry) (opts : VerifyOptions) :
    Except Err (List Nat) :=
  let lr := LeafRange entries
  verifyListLoop comb hashFn reader entries opts.tenantId lr.2
    (lr.2 + 1 - lr.1) lr.1 0 default []

/-- massifs.MMRState (external go-datatrails-merklelog): an attested log
state, in the peak-based form the spec adopts. -/
structure MMRState where
  mmrSize : Nat
  peaks : List Nat
deriving DecidableEq, Repr, Inhabited

/-- verifyconsistency (part_009) VerifyConsistency: verify that log state B
is appended onto log state A, by checking A's peaks remain sub-peaks of B's
tree, read from the massif containing B's last node. -/
def VerifyConsistency (comb : Nat → Nat → Nat) (reader : MassifReader)
    (tenantID : String) (stateA stateB : MMRState) : Except Err Bool :=
  if stateA.peaks = [] ∨ stateB.peaks = [] then .error .statePeaksNotSet
  else
    match Massif (stateB.mmrSize - 1) reader tenantID DefaultMassifHeight false with
    | .error e => .error e
    | .ok mcB => CheckConsistency comb mcB.leaves stateA.mmrSize stateB.mmrSize stateA.peaks

/-! Concrete fixtures used to evaluate the verified properties on explicit
inputs. -/

/-- A concrete combining function standing in for SHA-256 pair hashing. -/
def combW : Nat → Nat → Nat := fun a b => 31 * a + b + 1

/-- A concrete leaf hashing function standing in for SHA-256; constant, so
that fixture logs can be written down directly. -/
def hashW : List Nat → Nat := fun _ => 42

/-- A well-formed textual id-timestamp (epoch byte 1, value 0). -/
def idtsOK : String := "0x010000000000000000"

/-- A concrete app entry committed at MMR index `i`. -/
def entryAt (i : Nat) : AppEntry :=
  ⟨"events/1", List.replicate 16 7, [1, 2], ⟨1, [5, 5]⟩, some ⟨i, idtsOK⟩⟩

/-- A two-leaf massif context whose first leaf hash is `hashW`'s value. -/
def mcTwoLeaves : MassifContext := ⟨⟨0, 14⟩, 0, [42, 99]⟩

/-- Reader serving the two-leaf massif. -/
def readerTwoLeaves : MassifReader := fun _ _ => .ok mcTwoLeaves

/-- A four-leaf massif context; leaves 0 and 3 carry `hashW`'s value. -/
def mcFourLeaves : MassifContext := ⟨⟨0, 14⟩, 0, [42, 7, 8, 42]⟩

/-- Reader serving the four-leaf massif. -/
def readerFourLeaves : MassifReader := fun _ _ => .ok mcFourLeaves

/-- Eleven concrete leaf hashes (scenario G: state B). -/
def leavesEleven : List Nat := [1, 2, 3, 4, 5, 6, 7, 8, 9, 10, 11]

/-- Massif context of the eleven-leaf log. -/
def mcEleven : MassifContext := ⟨⟨0, 14⟩, 0, leavesEleven⟩

/-- Reader serving the eleven-leaf massif. -/
def readerEleven : MassifReader := fun _ _ => .ok mcEleven

/-- Scenario G state A: 7 leaves, MMR size 11, its three peaks. -/
def stateSeven : MMRState := ⟨11, peaks combW leavesEleven 7⟩

/-- Scenario G state B: 11 leaves, MMR size 19, its three peaks. -/
def stateEleven : MMRState := ⟨19, peaks combW leavesEleven 11⟩

/-- A height-2 massif context (two leaves per massif, three nodes). -/
def mcHeightTwo : MassifContext := ⟨⟨0, 2⟩, 0, [5, 6]⟩

/-- A reader whose every fetch fails, making fetches observable. -/
def readerFail : MassifReader := fun _ _ => .error .fetchFailed

/-- Scenario A extra bytes: domain byte 1 then 1..8 repeated, 24 bytes. -/
def katExtraBytes : List Nat :=
  [1, 1, 2, 3, 4, 5, 6, 7, 8, 1, 2, 3, 4, 5, 6, 7, 8, 1, 2, 3, 4, 5, 6, 7]

/-- Scenario A app entry with id-timestamp `0x01931acb7b14043b00`. -/
def katAppEntry : AppEntry :=
  ⟨"events/1", [], katExtraBytes, ⟨1, []⟩, some ⟨0, "0x01931acb7b14043b00"⟩⟩

/-- Scenario A expected MMR salt. -/
def katSalt : List Nat :=
  [0x01, 0x01, 0x02, 0x03, 0x04, 0x05, 0x06, 0x07, 0x08, 0x01, 0x02, 0x03,
   0x04, 0x05, 0x06, 0x07, 0x08, 0x01, 0x02, 0x03, 0x04, 0x05, 0x06, 0x07,
   0x93, 0x1a, 0xcb, 0x7b, 0x14, 0x04, 0x3b, 0x00]

/-! Lemmas about the MMR position algebra. -/

theorem popcountFuel_le_eq : ∀ fuel n, n ≤ fuel → popcountFuel fuel n = popcount n := by
  intro fuel
  induction fuel using Nat.strong_induction_on with
  | _ fuel ih =>
    intro n hn
    cases fuel with
    | zero =>
      have h0 : n = 0 := by omega
      subst h0; rfl
    | succ f =>
      by_cases h0 : n = 0
      · subst h0; simp [popcountFuel, popcount]
      · obtain ⟨m, rfl⟩ : ∃ m, n = m + 1 := ⟨n - 1, by omega⟩
        rw [popcountFuel, if_neg h0, ih f (by omega) _ (by omega)]
        conv_rhs => rw [popcount, popcountFuel]
        rw [if_neg h0, ih m (by omega) _ (by omega)]

theorem popcount_div2 (n : Nat) (h : n ≠ 0) :
    popcount n = popcount (n / 2) + n % 2 := by
  obtain ⟨m, rfl⟩ : ∃ m, n = m + 1 := ⟨n - 1, by omega⟩
  conv_lhs => rw [popcount, popcountFuel]
  simp only [h, if_false]
  rw [popcountFuel_le_eq m _ (by omega)]

theorem popcount_le (n : Nat) : popcount n ≤ n := by
  induction n using Nat.strong_induction_on with
  | _ n ih =>
    by_cases h0 : n = 0
    · subst h0; simp [popcount, popcountFuel]
    · rw [popcount_div2 n h0]
      have h1 := ih (n / 2) (Nat.div_lt_self (by omega) (by omega))
      omega

theorem popcount_succ_le (n : Nat) : popcount (n + 1) ≤ popcount n + 1 := by
  induction n using Nat.strong_induction_on with
  | _ n ih =>
    rcases Nat.even_or_odd n with he | ho
    · obtain ⟨k, rfl⟩ := he
      have h1 : popcount (k + k + 1) = popcount k + 1 := by
        rw [popcount_div2 _ (by omega)]
        congr 1 <;> [congr 1; skip] <;> omega
      by_cases hk : k = 0
      · subst hk; decide
      · have h2 : popcount (k + k) = popcount k := by
          rw [popcount_div2 _ (by omega)]
          have : (k + k) / 2 = k := by omega
          rw [this]; omega
        omega
    · obtain ⟨k, rfl⟩ := ho
      have h1 : popcount (2 * k + 1 + 1) = popcount (k + 1) := by
        rw [popcount_div2 _ (by omega)]
        have : (2 * k + 1 + 1) / 2 = k + 1 := by omega
        rw [this]; omega
      have h2 : popcount (2 * k + 1) = popcount k + 1 := by
        rw [popcount_div2 _ (by omega)]
        congr 1 <;> [congr 1; skip] <;> omega
      have h3 := ih k (by omega)
      omega

theorem MMRIndex_lt_succ (l : Nat) : MMRIndex l < MMRIndex (l + 1) := by
  have h1 := popcount_le l
  have h2 := popcount_le (l + 1)
  have h3 := popcount_succ_le l
  simp only [MMRIndex]
  omega

theorem MMRIndex_strictMono : StrictMono MMRIndex :=
  strictMono_nat_of_lt_succ MMRIndex_lt_succ

theorem le_MMRIndex (n : Nat) : n ≤ MMRIndex n := by
  have := popcount_le n
  simp only [MMRIndex]
  omega

theorem LeafCount_MMRIndex (n : Nat) : LeafCount (MMRIndex n) = n := by
  cases n with
  | zero => rfl
  | succ m =>
    have hpos : 0 < MMRIndex (m + 1) := lt_of_lt_of_le (by omega) (le_MMRIndex (m + 1))
    rw [LeafCount, if_neg (by omega)]
    have hfg : Nat.findGreatest (fun n => MMRIndex n < MMRIndex (m + 1)) (MMRIndex (m + 1)) = m := by
      rw [Nat.findGreatest_eq_iff]
      have hmb : m ≤ MMRIndex (m + 1) := le_trans (Nat.le_succ m) (le_MMRIndex (m + 1))
      refine ⟨hmb, fun _ => MMRIndex_strictMono (by omega), ?_⟩
      intro k hk _ hcon
      have := MMRIndex_strictMono.lt_iff_lt.mp hcon
      omega
    rw [hfg]

theorem log2Fuel_le_eq : ∀ fuel n, n ≤ fuel → log2Fuel fuel n = log2n n := by
  intro fuel
  induction fuel using Nat.strong_induction_on with
  | _ fuel ih =>
    intro n hn
    cases fuel with
    | zero =>
      have h0 : n = 0 := by omega
      subst h0; rfl
    | succ f =>
      by_cases h2 : 2 ≤ n
      · obtain ⟨m, rfl⟩ : ∃ m, n = m + 1 := ⟨n - 1, by omega⟩
        rw [log2Fuel, if_pos h2, ih f (by omega) _ (by omega)]
        conv_rhs => rw [log2n, log2Fuel]
        rw [if_pos h2, ih m (by omega) _ (by omega)]
      · interval_cases n
        · simp [log2Fuel, log2n]
        · rw [log2Fuel, if_neg h2]
          rfl

theorem log2n_two_le (n : Nat) (h : 2 ≤ n) : log2n n = log2n (n / 2) + 1 := by
  obtain ⟨m, rfl⟩ : ∃ m, n = m + 1 := ⟨n - 1, by omega⟩
  conv_lhs => rw [log2n, log2Fuel]
  rw [if_pos h, log2Fuel_le_eq m _ (by omega)]

theorem pow_log2n_le (n : Nat) (h : 1 ≤ n) : 2 ^ log2n n ≤ n := by
  induction n using Nat.strong_induction_on with
  | _ n ih =>
    by_cases h2 : 2 ≤ n
    · rw [log2n_two_le n h2, pow_succ]
      have hd : 1 ≤ n / 2 := by omega
      have := ih (n / 2) (by omega) hd
      omega
    · have h1 : n = 1 := by omega
      subst h1
      simp [log2n, log2Fuel]

theorem peakSegsFrom_le_eq : ∀ fuel n start, n ≤ fuel →
    peakSegsFrom fuel n start = peakSegsFrom n n start := by
  intro fuel
  induction fuel using Nat.strong_induction_on with
  | _ fuel ih =>
    intro n start hn
    cases fuel with
    | zero =>
      have h0 : n = 0 := by omega
      subst h0; rfl
    | succ f =>
      by_cases h0 : n = 0
      · subst h0; rfl
      · obtain ⟨m, rfl⟩ : ∃ m, n = m + 1 := ⟨n - 1, by omega⟩
        have hpow : 1 ≤ 2 ^ log2n (m + 1) := Nat.one_le_two_pow
        rw [peakSegsFrom, if_neg h0, ih f (by omega) _ _ (by omega)]
        conv_rhs => rw [peakSegsFrom]
        rw [if_neg h0, ih m (by omega) _ _ (by omega)]

theorem peakSegsFrom_cover : ∀ n start l, l < n →
    ∃ s k, (s, k) ∈ peakSegsFrom n n start ∧ s ≤ start + l ∧ start + l < s + 2 ^ k ∧
      s + 2 ^ k ≤ start + n := by
  intro n
  induction n using Nat.strong_induction_on with
  | _ n ih =>
    intro start l hl
    obtain ⟨m, rfl⟩ : ∃ m, n = m + 1 := ⟨n - 1, by omega⟩
    have hpow : 2 ^ log2n (m + 1) ≤ m + 1 := pow_log2n_le (m + 1) (by omega)
    have hpow1 : 1 ≤ 2 ^ log2n (m + 1) := Nat.one_le_two_pow
    have hhead : peakSegsFrom (m + 1) (m + 1) start =
        (start, log2n (m + 1)) ::
          peakSegsFrom (m + 1 - 2 ^ log2n (m + 1)) (m + 1 - 2 ^ log2n (m + 1))
            (start + 2 ^ log2n (m + 1)) := by
      conv_lhs => rw [peakSegsFrom]
      rw [if_neg (by omega), peakSegsFrom_le_eq m _ _ (by omega)]
    by_cases hcase : l < 2 ^ log2n (m + 1)
    · exact ⟨start, log2n (m + 1), by rw [hhead]; exact List.mem_cons_self _ _,
        by omega, by omega, by omega⟩
    · have hrec := ih (m + 1 - 2 ^ log2n (m + 1)) (by omega)
        (start + 2 ^ log2n (m + 1)) (l - 2 ^ log2n (m + 1)) (by omega)
      obtain ⟨s, k, hmem, h1, h2, h3⟩ := hrec
      refine ⟨s, k, ?_, by omega, by omega, by omega⟩
      rw [hhead]
      exact List.mem_cons_of_mem _ hmem

theorem foldRoot_concat (comb : Nat → Nat → Nat) (h : Nat) (p : List (Bool × Nat))
    (e : Bool × Nat) :
    foldRoot comb h (p ++ [e]) =
      if e.1 then comb (foldRoot comb h p) e.2 else comb e.2 (foldRoot comb h p) := by
  simp [foldRoot, List.foldl_append]

theorem segPath_foldRoot (comb : Nat → Nat → Nat) (leaves : List Nat) :
    ∀ k s o, o < 2 ^ k →
      foldRoot comb (leaves.getD (s + o) 0) (segPath comb leaves s k o) =
        segRoot comb leaves s k := by
  intro k
  induction k with
  | zero =>
    intro s o ho
    have h0 : o = 0 := by omega
    subst h0
    simp [segPath, foldRoot, segRoot]
  | succ k ih =>
    intro s o ho
    by_cases hcase : o < 2 ^ k
    · rw [segPath, if_pos hcase, foldRoot_concat, ih s o hcase]
      simp [segRoot]
    · rw [segPath, if_neg hcase]
      have hlt : o - 2 ^ k < 2 ^ k := by
        have := pow_succ 2 k
        omega
      have harg : s + o = (s + 2 ^ k) + (o - 2 ^ k) := by omega
      rw [foldRoot_concat, harg, ih (s + 2 ^ k) (o - 2 ^ k) hlt]
      simp [segRoot]

theorem LeafCount_RangeCount (mc : MassifContext) :
    LeafCount mc.RangeCount = mc.leaves.length := by
  rw [MassifContext.RangeCount, LeafCount_MMRIndex]

/-- C1: Inclusion round-trip.  For every app entry whose MMR index is a
leaf position of the massif window's MMR, whose leaf hash (MMREntry)
derives without error, and whose leaf hash equals the node stored at that
position (the leaf slot of the window, whose RangeCount is the attested
size, so the attested size is at least mmr_index+1), AppEntry.VerifyInclusion
— which composes AppEntry.Proof and AppEntry.VerifyProof over the same
massif context — returns true with no error. -/
theorem appEntry_verifyInclusion_roundtrip
    (comb : Nat → Nat → Nat) (hashFn : List Nat → Nat) (mc : MassifContext)
    (ae : AppEntry) (l entry : Nat)
    (hLeaf : leafIndexOfMMRIndex? ae.MMRIndex = some l)
    (hEntry : ae.MMREntry hashFn = .ok entry)
    (hLen : l < mc.leaves.length)
    (hVal : mc.leaves.getD l 0 = entry) :
    ae.VerifyInclusion comb hashFn mc = .ok true := by
  obtain ⟨s, k, hmem, hs, hsk, hle⟩ := peakSegsFrom_cover mc.leaves.length 0 l hLen
  simp only [Nat.zero_add] at hs hsk hle
  have hfsome : ∃ sk, findSeg mc.leaves.length l = some sk := by
    rw [← Option.isSome_iff_exists, findSeg]
    rw [List.find?_isSome]
    exact ⟨(s, k), hmem, by simp only [Bool.and_eq_true, decide_eq_true_eq]; omega⟩
  obtain ⟨sk, hF⟩ := hfsome
  have hF' : (peakSegs mc.leaves.length).find?
      (fun sk => decide (sk.1 ≤ l) && decide (l < sk.1 + 2 ^ sk.2)) = some sk := hF
  have hpred := List.find?_some hF'
  rw [Bool.and_eq_true, decide_eq_true_eq, decide_eq_true_eq] at hpred
  obtain ⟨hp1, hp2⟩ := hpred
  have hmem' := List.mem_of_find?_eq_some hF'
  have hfold : foldRoot comb entry (segPath comb mc.leaves sk.1 sk.2 (l - sk.1)) =
      segRoot comb mc.leaves sk.1 sk.2 := by
    have ho : l - sk.1 < 2 ^ sk.2 := by omega
    have hstep := segPath_foldRoot comb mc.leaves sk.2 sk.1 (l - sk.1) ho
    rw [show sk.1 + (l - sk.1) = l from by omega, hVal] at hstep
    exact hstep
  have hany : (peaks comb mc.leaves mc.leaves.length).any
      (fun p => decide (p = foldRoot comb entry (segPath comb mc.leaves sk.1 sk.2 (l - sk.1))))
        = true := by
    rw [List.any_eq_true]
    refine ⟨segRoot comb mc.leaves sk.1 sk.2, ?_, by rw [decide_eq_true_eq, hfold]⟩
    rw [peaks]
    exact List.mem_map_of_mem _ hmem'
  have hProof : ae.Proof comb mc = .ok (segPath comb mc.leaves sk.1 sk.2 (l - sk.1)) := by
    simp only [AppEntry.Proof, InclusionProof, hLeaf, hF]
  have hVerify : ae.VerifyProof comb hashFn mc
      (segPath comb mc.leaves sk.1 sk.2 (l - sk.1)) = .ok true := by
    simp only [AppEntry.VerifyProof, hEntry, VerifyInclusion, hLeaf, LeafCount_RangeCount, hany]
  simp only [AppEntry.VerifyInclusion, hProof, hVerify]

/-- C1 witness: the round-trip evaluated on the two-leaf fixture log with
the fixture entry at MMR index 0. -/
theorem appEntry_verifyInclusion_roundtrip_witness :
    (entryAt 0).VerifyInclusion combW hashW mcTwoLeaves = .ok true :=
  appEntry_verifyInclusion_roundtrip combW hashW mcTwoLeaves (entryAt 0) 0 42
    (by decide) (by rfl) (by decide) (by decide)

/-- C2: Scenario A salt KAT.  For the app entry whose extra bytes are 0x01
followed by 1..8 repeated thrice truncated to 23 usable bytes, and whose
commit id-timestamp is "0x01931acb7b14043b00", MMRSalt returns exactly the
32 bytes 01 01 02 .. 07 93 1a cb 7b 14 04 3b 00: the 24 extra bytes
followed by the 8-byte big-endian id-timestamp with the epoch byte
removed. -/
theorem mmrSalt_scenarioA_kat : katAppEntry.MMRSalt = .ok katSalt := by rfl

/-- C3: Salt overflow boundary.  For an extra-bytes input of a domain byte
`d` followed by 24 usable bytes `u`, the 24th usable byte is dropped from
the salt: the salt's extra-bytes region is `d :: u.take 23`, so the last
usable byte kept is position 22 of `u`; shorter inputs are zero-padded on
the right and longer inputs truncated to the 24-byte field. -/
theorem mmrSalt_extraBytes_boundary
    (aid : String) (lid : List Nat) (f : MMREntryFields) (c : MerkleLogCommit)
    (idts ep d : Nat) (u v : List Nat)
    (hsplit : SplitIDTimestampHex c.idtimestamp = .ok (idts, ep))
    (hu : u.length = 24) :
    (AppEntry.MMRSalt ⟨aid, lid, d :: u, f, some c⟩ =
        .ok ((d :: u.take 23) ++ beBytes8 idts)) ∧
    (v.length ≤ 24 →
      AppEntry.MMRSalt ⟨aid, lid, v, f, some c⟩ =
        .ok ((v ++ List.replicate (24 - v.length) 0) ++ beBytes8 idts)) ∧
    (24 ≤ v.length →
      AppEntry.MMRSalt ⟨aid, lid, v, f, some c⟩ =
        .ok (v.take 24 ++ beBytes8 idts)) := by
  refine ⟨?_, ?_, ?_⟩
  · simp only [AppEntry.MMRSalt, hsplit]
    have htake : (d :: u).take ExtraBytesSize = d :: u.take 23 := rfl
    have hlen : ExtraBytesSize - (d :: u).length = 0 := by
      simp [ExtraBytesSize, hu]
    rw [htake, hlen]
    simp
  · intro hv
    simp only [AppEntry.MMRSalt, hsplit]
    have htake : v.take ExtraBytesSize = v := List.take_of_length_le hv
    rw [htake]
    simp only [ExtraBytesSize]
  · intro hv
    simp only [AppEntry.MMRSalt, hsplit]
    have hlen : ExtraBytesSize - v.length = 0 := by
      simp only [ExtraBytesSize]
      omega
    rw [hlen]
    simp [ExtraBytesSize]

/-- C3 witness: the boundary behaviour evaluated on the scenario-A
id-timestamp with a 25-byte input (domain byte then 24 usable bytes): the
final byte 8 is dropped, and the 22-byte underflow case is padded. -/
theorem mmrSalt_extraBytes_boundary_witness :
    (AppEntry.MMRSalt ⟨"e", [], 1 :: [1, 2, 3, 4, 5, 6, 7, 8, 1, 2, 3, 4, 5, 6, 7, 8,
        1, 2, 3, 4, 5, 6, 7, 8], ⟨1, []⟩, some ⟨0, "0x01931acb7b14043b00"⟩⟩ =
      .ok ((1 :: [1, 2, 3, 4, 5, 6, 7, 8, 1, 2, 3, 4, 5, 6, 7, 8,
        1, 2, 3, 4, 5, 6, 7, 8].take 23) ++
          beBytes8 0x931acb7b14043b00)) ∧
    ([(9 : Nat), 9].length ≤ 24 →
      AppEntry.MMRSalt ⟨"e", [], [9, 9], ⟨1, []⟩, some ⟨0, "0x01931acb7b14043b00"⟩⟩ =
        .ok (([9, 9] ++ List.replicate (24 - [(9 : Nat), 9].length) 0) ++
          beBytes8 0x931acb7b14043b00)) := by
  have h := mmrSalt_extraBytes_boundary "e" [] ⟨1, []⟩ ⟨0, "0x01931acb7b14043b00"⟩
    0x931acb7b14043b00 1 1
    [1, 2, 3, 4, 5, 6, 7, 8, 1, 2, 3, 4, 5, 6, 7, 8, 1, 2, 3, 4, 5, 6, 7, 8]
    [9, 9] (by rfl) (by decide)
  exact ⟨h.1, h.2.1⟩

/-- C5: Intermediate-node rejection.  For every app entry whose MMR index
has height greater than 0, VerifyAppEntryInList classifies it Excluded with
the intermediate-node error and returns the context untouched, for every
reader, payload, hasher and leaf position: the rejection happens before any
leaf hash is computed or any massif fetched. -/
theorem verifyAppEntryInList_intermediateNode
    (comb : Nat → Nat → Nat) (hashFn : List Nat → Nat) (reader : MassifReader)
    (leafIndex : Nat) (ae : AppEntry) (mc : MassifContext) (tenantID : String)
    (h : IndexHeight ae.MMRIndex ≠ 0) :
    VerifyAppEntryInList comb hashFn reader leafIndex ae mc tenantID =
      (.Excluded, some .intermediateNode, mc) := by
  simp [VerifyAppEntryInList, h]

/-- C5 witness: an entry at MMR index 2 (height 1), with a reader whose
every fetch fails — showing no fetch is attempted. -/
theorem verifyAppEntryInList_intermediateNode_witness :
    VerifyAppEntryInList combW hashW readerFail 0 (entryAt 2) mcTwoLeaves "t" =
      (.Excluded, some .intermediateNode, mcTwoLeaves) :=
  verifyAppEntryInList_intermediateNode combW hashW readerFail 0 (entryAt 2)
    mcTwoLeaves "t" (by decide)

/-- C9: NotLeaf suppression.  With suppression disabled every error
propagates; with it enabled a NotLeaf error becomes success and the massif
lookup continues to the reader, while every other error is returned
unchanged. -/
theorem handleMassifIndexErr_suppression :
    (∀ e : Option Err, handleMassifIndexErr e false = e) ∧
    (handleMassifIndexErr (some .notLeaf) true = none) ∧
    (∀ e : Option Err, e ≠ some .notLeaf → handleMassifIndexErr e true = e) ∧
    (∀ (reader : MassifReader) (t : String) (i hh : Nat), IndexHeight i ≠ 0 →
      Massif i reader t hh true = reader t (MassifIndexFromMMRIndex hh i).1) ∧
    (∀ (reader : MassifReader) (t : String) (i hh : Nat), IndexHeight i ≠ 0 →
      Massif i reader t hh false = .error .notLeaf) := by
  refine ⟨fun e => rfl, rfl, ?_, ?_, ?_⟩
  · intro e he
    simp [handleMassifIndexErr, he]
  · intro reader t i hh hi
    simp [Massif, MassifIndexFromMMRIndex, hi, handleMassifIndexErr]
  · intro reader t i hh hi
    simp [Massif, MassifIndexFromMMRIndex, hi, handleMassifIndexErr]

/-- C9 witness: a non-NotLeaf error survives suppression; resolving the
interior node 2 with suppression on reaches the reader, and with
suppression off fails with NotLeaf. -/
theorem handleMassifIndexErr_suppression_witness :
    handleMassifIndexErr (some .fetchFailed) true = some .fetchFailed ∧
    Massif 2 readerTwoLeaves "t" 14 true = .ok mcTwoLeaves ∧
    Massif 2 readerTwoLeaves "t" 14 false = .error .notLeaf := by
  refine ⟨handleMassifIndexErr_suppression.2.2.1 _ (by decide), ?_,
    handleMassifIndexErr_suppression.2.2.2.2 readerTwoLeaves "t" 2 14 (by decide)⟩
  rw [handleMassifIndexErr_suppression.2.2.2.1 readerTwoLeaves "t" 2 14 (by decide)]
  rfl

/-- Loop invariant of the list reconciler: a successful run extends the
accumulator with the MMR indices of a strictly increasing list of leaf
ordinals drawn from the remaining range, and — when the fuel covers the
range, as it does from the top-level call — the walk classified every
remaining leaf, consuming at most the remaining entries. -/
theorem verifyListLoop_ok_inv (comb : Nat → Nat → Nat) (hashFn : List Nat → Nat)
    (reader : MassifReader) (entries : List AppEntry) (optTenant : String) (high : Nat) :
    ∀ fuel leafIndex entryIndex mc acc om,
      entryIndex ≤ entries.length →
      verifyListLoop comb hashFn reader entries optTenant high fuel leafIndex entryIndex mc acc
        = .ok om →
      ∃ ls : List Nat,
        om = acc ++ ls.map MMRIndex ∧
        ls.Pairwise (· < ·) ∧
        (∀ l ∈ ls, leafIndex ≤ l ∧ l ≤ high) ∧
        (high + 1 ≤ fuel + leafIndex →
          ∃ c, entryIndex + c ≤ entries.length ∧ ls.length + c = high + 1 - leafIndex) := by
  intro fuel
  induction fuel with
  | zero =>
    intro leafIndex entryIndex mc acc om hE hrec
    rw [verifyListLoop] at hrec
    injection hrec with h
    subst h
    exact ⟨[], by simp, List.Pairwise.nil, by simp,
      fun hf => ⟨0, by omega, by simp only [List.length_nil]; omega⟩⟩
  | succ fuel ih =>
    intro leafIndex entryIndex mc acc om hE hrec
    rw [verifyListLoop] at hrec
    by_cases hhi : high < leafIndex
    · rw [if_pos hhi] at hrec
      injection hrec with h
      subst h
      exact ⟨[], by simp, List.Pairwise.nil, by simp,
        fun hf => ⟨0, by omega, by simp only [List.length_nil]; omega⟩⟩
    · rw [if_neg hhi] at hrec
      by_cases hlen : entries.length ≤ entryIndex
      · rw [if_pos hlen] at hrec
        cases hrec
      · rw [if_neg hlen] at hrec
        cases hten : (if optTenant = "" then (entries.getD entryIndex default).LogTenant
            else Except.ok optTenant) with
        | error e =>
          simp only [hten] at hrec
          cases hrec
        | ok tid =>
          simp only [hten] at hrec
          rcases hstep : VerifyAppEntryInList comb hashFn reader leafIndex
              (entries.getD entryIndex default) mc tid with ⟨ty, e?, mc2⟩
          simp only [hstep] at hrec
          cases e? with
          | some e => cases hrec
          | none =>
            replace hrec :
                (if ty = AppEntryType.Omitted then
                  verifyListLoop comb hashFn reader entries optTenant high fuel
                    (leafIndex + 1) entryIndex mc2 (acc ++ [MMRIndex leafIndex])
                else
                  verifyListLoop comb hashFn reader entries optTenant high fuel
                    (leafIndex + 1) (entryIndex + 1) mc2 acc) = .ok om := hrec
            by_cases hty : ty = AppEntryType.Omitted
            · rw [if_pos hty] at hrec
              obtain ⟨ls', h1, h2, h3, h4⟩ :=
                ih (leafIndex + 1) entryIndex mc2 (acc ++ [MMRIndex leafIndex]) om hE hrec
              refine ⟨leafIndex :: ls', ?_, ?_, ?_, ?_⟩
              · rw [h1]
                simp
              · exact List.Pairwise.cons (fun l' hl' => by have := (h3 l' hl').1; omega) h2
              · intro l hl
                rcases List.mem_cons.mp hl with rfl | hl2
                · exact ⟨le_refl _, by omega⟩
                · have := h3 _ hl2
                  omega
              · intro hf
                obtain ⟨c, hc1, hc2⟩ := h4 (by omega)
                exact ⟨c, hc1, by simp; omega⟩
            · rw [if_neg hty] at hrec
              obtain ⟨ls', h1, h2, h3, h4⟩ :=
                ih (leafIndex + 1) (entryIndex + 1) mc2 acc om (by omega) hrec
              refine ⟨ls', h1, h2, ?_, ?_⟩
              · intro l hl
                have := h3 _ hl
                omega
              · intro hf
                obtain ⟨c, hc1, hc2⟩ := h4 (by omega)
                exact ⟨c + 1, by omega, by omega⟩

/-- C4 counterexample: a sorted list of two entries, both committed at MMR
index 0, over the two-leaf fixture log.  The leaf range is the single leaf
0; VerifyList consumes the first entry there, exhausts the leaf range
before the entries, and succeeds with an empty omitted list — instead of
the fatal TooManyEntries classification the claim requires (no such
classification exists in the code). -/
theorem verifyList_leafRange_first_counterexample :
    VerifyList combW hashW readerTwoLeaves [entryAt 0, entryAt 0] ⟨"t"⟩ = .ok [] ∧
    LeafRange [entryAt 0, entryAt 0] = (0, 0) ∧
    [entryAt 0, entryAt 0].length = 2 :=
  ⟨by rfl, by rfl, rfl⟩

/-- C4 (amended): the reconciler's termination is the reverse of the
claim's: a successful VerifyList walked every leaf of the range (omitted
plus consumed classifications cover it exactly) while consuming at most —
possibly strictly fewer than — the provided entries; and whenever the
entries are exhausted while a leaf of the range remains, the loop fails
with ErrNotEnoughAppEntriesInList rather than succeeding. -/
theorem verifyList_termination_amended :
    (∀ (comb : Nat → Nat → Nat) (hashFn : List Nat → Nat) (reader : MassifReader)
        (entries : List AppEntry) (opts : VerifyOptions) (om : List Nat),
      VerifyList comb hashFn reader entries opts = .ok om →
      ∃ c, c ≤ entries.length ∧
        om.length + c = (LeafRange entries).2 + 1 - (LeafRange entries).1) ∧
    (∀ (comb : Nat → Nat → Nat) (hashFn : List Nat → Nat) (reader : MassifReader)
        (entries : List AppEntry) (optTenant : String) (high fuel leafIndex : Nat)
        (mc : MassifContext) (acc : List Nat),
      leafIndex ≤ high →
      verifyListLoop comb hashFn reader entries optTenant high (fuel + 1) leafIndex
        entries.length mc acc = .error .notEnoughAppEntriesInList) := by
  constructor
  · intro comb hashFn reader entries opts om hok
    simp only [VerifyList] at hok
    obtain ⟨ls, h1, _, _, h4⟩ := verifyListLoop_ok_inv comb hashFn reader entries
      opts.tenantId (LeafRange entries).2 ((LeafRange entries).2 + 1 - (LeafRange entries).1)
      (LeafRange entries).1 0 default [] om (by omega) hok
    obtain ⟨c, hc1, hc2⟩ := h4 (by omega)
    refine ⟨c, by omega, ?_⟩
    rw [h1]
    simp only [List.nil_append, List.length_map]
    omega
  · intro comb hashFn reader entries optTenant high fuel leafIndex mc acc hle
    rw [verifyListLoop, if_neg (by omega), if_pos (le_refl _)]

/-- C4 witness: the amended termination instantiated on the four-leaf
fixture run (omitted `[1, 3]`, range of four leaves, two entries), and the
entries-exhausted failure at a concrete loop state. -/
theorem verifyList_termination_amended_witness :
    (∃ c, c ≤ [entryAt 0, entryAt 4].length ∧
      ([1, 3] : List Nat).length + c =
        (LeafRange [entryAt 0, entryAt 4]).2 + 1 - (LeafRange [entryAt 0, entryAt 4]).1) ∧
    verifyListLoop combW hashW readerFourLeaves [entryAt 0, entryAt 4] "t" 3 1 0
      [entryAt 0, entryAt 4].length mcFourLeaves [] = .error .notEnoughAppEntriesInList :=
  ⟨verifyList_termination_amended.1 combW hashW readerFourLeaves [entryAt 0, entryAt 4]
      ⟨"t"⟩ [1, 3] (by rfl),
   verifyList_termination_amended.2 combW hashW readerFourLeaves [entryAt 0, entryAt 4]
      "t" 3 0 0 mcFourLeaves [] (by omega)⟩

/-- C6: Omitted-list shape.  Whenever VerifyList succeeds, the returned
omitted MMR indices are strictly increasing and each one is the MMR index
of a leaf whose leaf ordinal lies in the leaf range determined by the first
and last entry of the list. -/
theorem verifyList_omitted_shape
    (comb : Nat → Nat → Nat) (hashFn : List Nat → Nat) (reader : MassifReader)
    (entries : List AppEntry) (opts : VerifyOptions) (om : List Nat)
    (hok : VerifyList comb hashFn reader entries opts = .ok om) :
    om.Pairwise (· < ·) ∧
    ∀ x ∈ om, ∃ l, (LeafRange entries).1 ≤ l ∧ l ≤ (LeafRange entries).2 ∧
      x = MMRIndex l := by
  simp only [VerifyList] at hok
  obtain ⟨ls, h1, h2, h3, _⟩ := verifyListLoop_ok_inv comb hashFn reader entries
    opts.tenantId (LeafRange entries).2 ((LeafRange entries).2 + 1 - (LeafRange entries).1)
    (LeafRange entries).1 0 default [] om (by omega) hok
  rw [List.nil_append] at h1
  subst h1
  constructor
  · rw [List.pairwise_map]
    exact h2.imp (fun h => MMRIndex_strictMono h)
  · intro x hx
    obtain ⟨l, hl, rfl⟩ := List.mem_map.mp hx
    exact ⟨l, (h3 l hl).1, (h3 l hl).2, rfl⟩

/-- C6 witness: the omitted-list shape on the four-leaf fixture run whose
omitted list is `[1, 3]` over the leaf range `[0, 3]`. -/
theorem verifyList_omitted_shape_witness :
    ([1, 3] : List Nat).Pairwise (· < ·) ∧
    ∀ x ∈ ([1, 3] : List Nat), ∃ l,
      (LeafRange [entryAt 0, entryAt 4]).1 ≤ l ∧
      l ≤ (LeafRange [entryAt 0, entryAt 4]).2 ∧ x = MMRIndex l :=
  verifyList_omitted_shape combW hashW readerFourLeaves [entryAt 0, entryAt 4]
    ⟨"t"⟩ [1, 3] (by rfl)

/-- C7: Consistency anti-symmetry.  For attested states whose sizes are
genuine MMR sizes, whenever state B's size is smaller than state A's,
VerifyConsistency of B against the larger A never returns true. -/
theorem verifyConsistency_antisymmetry
    (comb : Nat → Nat → Nat) (reader : MassifReader) (tenantID : String)
    (stateA stateB : MMRState) (a b : Nat)
    (ha : stateA.mmrSize = MMRIndex a) (hb : stateB.mmrSize = MMRIndex b)
    (hlt : stateB.mmrSize < stateA.mmrSize) :
    VerifyConsistency comb reader tenantID stateA stateB ≠ .ok true := by
  have hba : b < a := by
    by_contra hcon
    push_neg at hcon
    have := MMRIndex_strictMono.monotone hcon
    omega
  have hnA : LeafCount stateA.mmrSize = a := by rw [ha, LeafCount_MMRIndex]
  have hnB : LeafCount stateB.mmrSize = b := by rw [hb, LeafCount_MMRIndex]
  rw [VerifyConsistency]
  by_cases hpk : stateA.peaks = [] ∨ stateB.peaks = []
  · rw [if_pos hpk]
    simp
  · rw [if_neg hpk]
    cases hm : Massif (stateB.mmrSize - 1) reader tenantID DefaultMassifHeight false with
    | error e => simp
    | ok mcB =>
      show CheckConsistency comb mcB.leaves stateA.mmrSize stateB.mmrSize stateA.peaks
          ≠ .ok true
      rw [CheckConsistency, hnA, hnB]
      by_cases hlen : stateA.peaks.length ≠ (peakSegs a).length
      · rw [if_pos hlen]
        simp
      · rw [if_neg hlen]
        have hany : (peakSegs a).any (fun sk => decide (b < sk.1 + 2 ^ sk.2)) = true := by
          rw [List.any_eq_true]
          obtain ⟨s, k, hmem, hs, hsk2, hle⟩ := peakSegsFrom_cover a 0 (a - 1) (by omega)
          simp only [Nat.zero_add] at hs hsk2 hle
          exact ⟨(s, k), hmem, by simp only [decide_eq_true_eq]; omega⟩
        rw [if_pos hany]
        simp

/-- C7 witness: scenario G.  State A of 7 leaves (size 11) and state B of
11 leaves (size 19) extending it verify true; swapping A and B does not
return true. -/
theorem verifyConsistency_antisymmetry_witness :
    VerifyConsistency combW readerEleven "t" stateSeven stateEleven = .ok true ∧
    VerifyConsistency combW readerEleven "t" stateEleven stateSeven ≠ .ok true :=
  ⟨by rfl,
   verifyConsistency_antisymmetry combW readerEleven "t" stateEleven stateSeven 11 7
     (by rfl) (by rfl) (by decide)⟩

/-- C8 counterexample: a height-2 massif holding nodes 0, 1, 2 with first
index 0.  MMR index 1 — the massif's last leaf, inside the massif's node
range `[first_index, first_index + capacity)` — nevertheless triggers a
fetch: with a failing reader, UpdateMassifContext errors rather than
leaving the context unchanged. -/
theorem updateMassifContext_inRange_fetch_counterexample :
    (mcHeightTwo.start.firstIndex ≤ 1 ∧
      1 < mcHeightTwo.start.firstIndex + massifNodeCount mcHeightTwo) ∧
    UpdateMassifContext readerFail (some mcHeightTwo) 1 "t" 2 = .error .fetchFailed :=
  ⟨by decide, by rfl⟩

/-- C8 (amended): UpdateMassifContext leaves the context unchanged exactly
when the index lies in `[first_index, last_leaf_mmr_index)` — a strictly
smaller window than the massif's node range `[first_index, first_index +
capacity)`.  Every other index, including the last leaf and the interior
nodes above it even though they are in range, triggers a fetch: the result
is the reader's answer for the containing massif, marked fetched. -/
theorem updateMassifContext_window_amended
    (reader : MassifReader) (mc : MassifContext) (i : Nat) (t : String) (hh : Nat)
    (hwf : mc.start.firstIndex =
      MMRIndex (mc.massifIndex * leavesPerMassif mc.start.massifHeight)) :
    (UpdateMassifContext reader (some mc) i t hh =
      if mc.start.firstIndex ≤ i ∧ i < mc.LastLeafMMRIndex then .ok (mc, false)
      else (reader t (massifIndexContaining hh i)).map (fun m => (m, true))) ∧
    mc.LastLeafMMRIndex < mc.start.firstIndex + massifNodeCount mc := by
  constructor
  · rw [UpdateMassifContext]
    by_cases hc : mc.start.firstIndex ≤ i ∧ i < mc.LastLeafMMRIndex
    · rw [if_pos hc, if_pos hc]
    · rw [if_neg hc, if_neg hc]
      show (match reader t (massifIndexContaining hh i) with
            | .error e => Except.error e
            | .ok next => Except.ok (next, true)) = _
      cases reader t (massifIndexContaining hh i) with
      | error e => rfl
      | ok m => rfl
  · rw [MassifContext.LastLeafMMRIndex, massifNodeCount, hwf]
    have hL1 : 1 ≤ leavesPerMassif mc.start.massifHeight := Nat.one_le_two_pow
    have hpos : 1 ≤ (mc.massifIndex + 1) * leavesPerMassif mc.start.massifHeight :=
      Nat.one_le_iff_ne_zero.mpr (Nat.mul_ne_zero (by omega) (by omega))
    have h1 : MMRIndex ((mc.massifIndex + 1) * leavesPerMassif mc.start.massifHeight - 1) <
        MMRIndex ((mc.massifIndex + 1) * leavesPerMassif mc.start.massifHeight) :=
      MMRIndex_strictMono (by omega)
    have h2 : MMRIndex (mc.massifIndex * leavesPerMassif mc.start.massifHeight) ≤
        MMRIndex ((mc.massifIndex + 1) * leavesPerMassif mc.start.massifHeight) :=
      MMRIndex_strictMono.monotone
        (Nat.mul_le_mul_right (leavesPerMassif mc.start.massifHeight) (by omega))
    omega

/-- C8 witness: the amended window rule on the height-2 massif at index 2
— an interior node above the last leaf, inside the massif's node range —
with the failing reader: the window check fails, so the fetch reaches the
reader and its error surfaces. -/
theorem updateMassifContext_window_amended_witness :
    ((UpdateMassifContext readerFail (some mcHeightTwo) 2 "t" 2 =
      if mcHeightTwo.start.firstIndex ≤ 2 ∧ 2 < mcHeightTwo.LastLeafMMRIndex
      then .ok (mcHeightTwo, false)
      else (readerFail "t" (massifIndexContaining 2 2)).map (fun m => (m, true))) ∧
    mcHeightTwo.LastLeafMMRIndex <
      mcHeightTwo.start.firstIndex + massifNodeCount mcHeightTwo) ∧
    IndexHeight 2 ≠ 0 ∧
    2 < mcHeightTwo.start.firstIndex + massifNodeCount mcHeightTwo ∧
    UpdateMassifContext readerFail (some mcHeightTwo) 2 "t" 2 = .error .fetchFailed :=
  ⟨updateMassifContext_window_amended readerFail mcHeightTwo 2 "t" 2 (by decide),
   by decide, by decide, by rfl⟩

/-- C10: Nil-commit defaults.  For an app entry with no merkle log commit,
MMRIndex returns 0 and IDTimestamp returns the empty string, totally. -/
theorem appEntry_nilCommit_defaults (aid : String) (lid eb : List Nat)
    (f : MMREntryFields) :
    AppEntry.MMRIndex ⟨aid, lid, eb, f, none⟩ = 0 ∧
    AppEntry.IDTimestamp ⟨aid, lid, eb, f, none⟩ = "" :=
  ⟨rfl, rfl⟩

end LogVerification
